import Mathlib

/-!
Verification of the calendar view-range resolver, event layout, shift-creation
validator and group/event store operations of the shift-scheduling calendar.

Dates are embedded by their denotation under JavaScript `Date` / date-fns
semantics: a calendar day is its day number (days since 1970-01-01, proleptic
Gregorian), a date-time is its minute number (minutes since 1970-01-01 00:00,
local time), and a civil date is a (year, month, day) triple.  `daysFromCivil`
is the standard Gregorian civil-to-day-number conversion that `Date` implements;
weekday 0 is Sunday (`Date.getDay`).
-/

namespace Shifts

/-- Gregorian leap-year rule (`Date` semantics). -/
def isLeapYear (y : ℤ) : Prop := y % 4 = 0 ∧ (y % 100 ≠ 0 ∨ y % 400 = 0)

instance decIsLeapYear (y : ℤ) : Decidable (isLeapYear y) := by
  unfold isLeapYear; infer_instance

/-- Number of days in month `m` of year `y` (`Date` semantics; date-fns
`getDaysInMonth` / `endOfMonth`). -/
def daysInMonth (y m : ℤ) : ℤ :=
  if m = 2 then (if isLeapYear y then 29 else 28)
  else if m = 4 ∨ m = 6 ∨ m = 9 ∨ m = 11 then 30 else 31

/-- Year shifted so that the year starts in March (helper of `daysFromCivil`). -/
def yearAdj (y m : ℤ) : ℤ := if m ≤ 2 then y - 1 else y

/-- Month index in the March-based year (helper of `daysFromCivil`). -/
def monthIdx (m : ℤ) : ℤ := if m ≤ 2 then m + 9 else m - 3

/-- Day of the March-based year (helper of `daysFromCivil`). -/
def dayOfYear (m d : ℤ) : ℤ := (153 * monthIdx m + 2) / 5 + d - 1

/-- 400-year era of a March-based year (helper of `daysFromCivil`). -/
def eraOf (y : ℤ) : ℤ := y / 400

/-- Year of era (helper of `daysFromCivil`). -/
def yoeOf (y : ℤ) : ℤ := y - 400 * (y / 400)

/-- Day number (days since 1970-01-01) of the civil date `(y, m, d)`: the
proleptic-Gregorian conversion implemented by JavaScript `Date`. -/
def daysFromCivil (y m d : ℤ) : ℤ :=
  eraOf (yearAdj y m) * 146097 + yoeOf (yearAdj y m) * 365 +
    yoeOf (yearAdj y m) / 4 - yoeOf (yearAdj y m) / 100 + dayOfYear m d - 719468

/-- Weekday of a day number, 0 = Sunday .. 6 = Saturday (`Date.getDay`;
1970-01-01, day 0, was a Thursday). -/
def weekday (n : ℤ) : ℤ := (n + 4) % 7

/-- Day number of the Sunday on or before `n`: date-fns
`startOfWeek(date, weekStartsOn 0)` at day granularity. -/
def startOfWeek0 (n : ℤ) : ℤ := n - weekday n

/-- Day number of the Saturday on or after `n`: date-fns
`endOfWeek(date, weekStartsOn 0)` at day granularity. -/
def endOfWeek0 (n : ℤ) : ℤ := n + (6 - weekday n)

/-- The consecutive day numbers from `s` through `e` inclusive: denotation of
the `while (currentDay <= endDay) { push(currentDay); currentDay = addDays(currentDay, 1) }`
loops of `MainCalendar`. -/
def dayRange (s e : ℤ) : List ℤ :=
  (List.range (e + 1 - s).toNat).map (fun i : ℕ => s + (i : ℤ))

/-- `getDaysInWeek` from `mainApp.tsx`: the 7 days obtained by mapping
`addDays(startOfWeek(startDate, weekStartsOn 0), i)` over `i = 0..6`. -/
def getDaysInWeek (n : ℤ) : List ℤ :=
  (List.range 7).map (fun i : ℕ => startOfWeek0 n + (i : ℤ))

/-- A civil calendar date, the anchor date driving the views. -/
structure CivilDate where
  year : ℤ
  month : ℤ
  day : ℤ
deriving DecidableEq, Repr

/-- A civil date actually denotes a calendar date. -/
def Valid (a : CivilDate) : Prop :=
  1 ≤ a.month ∧ a.month ≤ 12 ∧ 1 ≤ a.day ∧ a.day ≤ daysInMonth a.year a.month

instance decValid (a : CivilDate) : Decidable (Valid a) := by
  unfold Valid; infer_instance

/-- Day number of the anchor date itself. -/
def anchorDayNumber (a : CivilDate) : ℤ := daysFromCivil a.year a.month a.day

/-- Day number of the first day of the anchor's month (date-fns `startOfMonth`). -/
def startOfMonthDay (a : CivilDate) : ℤ := daysFromCivil a.year a.month 1

/-- Day number of the last day of the anchor's month (date-fns `endOfMonth`). -/
def endOfMonthDay (a : CivilDate) : ℤ :=
  daysFromCivil a.year a.month (daysInMonth a.year a.month)

/-- Month-view day grid of `MainCalendar` (`month` / `month-detailed` branches):
all days from the Sunday on/before the first of the month through the Saturday
on/after the last of the month. -/
def monthViewDays (a : CivilDate) : List ℤ :=
  dayRange (startOfWeek0 (startOfMonthDay a)) (endOfWeek0 (endOfMonthDay a))

/-- First month (1, 4, 7 or 10) of the quarter containing month `m`
(date-fns `startOfQuarter`). -/
def quarterFirstMonth (m : ℤ) : ℤ := 3 * ((m - 1) / 3) + 1

/-- Day number of the first day of the anchor's quarter (date-fns `startOfQuarter`). -/
def startOfQuarterDay (a : CivilDate) : ℤ :=
  daysFromCivil a.year (quarterFirstMonth a.month) 1

/-- Day number of the last day of the anchor's quarter (date-fns `endOfQuarter`). -/
def endOfQuarterDay (a : CivilDate) : ℤ :=
  daysFromCivil a.year (quarterFirstMonth a.month + 2)
    (daysInMonth a.year (quarterFirstMonth a.month + 2))

/-- Quarter-detailed day grid of `MainCalendar` (`quarter-detailed` branch):
grid padding applied to the quarter's first and last day. -/
def quarterDetailedDays (a : CivilDate) : List ℤ :=
  dayRange (startOfWeek0 (startOfQuarterDay a)) (endOfWeek0 (endOfQuarterDay a))

/-- The three `(year, month)` tiles rendered by the `quarter` (summary) branch of
`MainCalendar`: `monthsInQuarter = map (addMonths(startOfQuarter, i)) [0,1,2]`. -/
def quarterSummaryMonths (a : CivilDate) : List (ℤ × ℤ) :=
  (List.range 3).map (fun i : ℕ => (a.year, quarterFirstMonth a.month + (i : ℤ)))

/-- The view modes of `MainCalendar`. -/
inductive CalendarView
  | week | day | month | monthDetailed | quarter | quarterDetailed | year
deriving DecidableEq

/-- `columnsToDisplay` of `MainCalendar.tsx` (lines 27-60): the day columns the
view renders; `quarter` and `year` leave the list empty and render month tiles
instead. -/
def columnsToDisplay (v : CalendarView) (a : CivilDate) : List ℤ :=
  match v with
  | .week => getDaysInWeek (anchorDayNumber a)
  | .day => [anchorDayNumber a]
  | .month => monthViewDays a
  | .monthDetailed => monthViewDays a
  | .quarterDetailed => quarterDetailedDays a
  | .quarter => []
  | .year => []

/-- `ShiftGroup` of `mainApp.tsx`: a named collapsible section. -/
structure ShiftGroup where
  id : String
  name : String
  isExpanded : Bool
deriving DecidableEq, Repr

/-- `Resource` of `mainApp.tsx`: an employee (or the synthetic open-shifts
placeholder) belonging to a group. -/
structure Resource where
  id : String
  name : String
  color : String
  groupId : String
deriving DecidableEq, Repr

/-- `ShiftEvent` of `mainApp.tsx`.  `start` and `stop` are the `start`/`end`
date-times, as minute numbers (minutes since 1970-01-01 00:00 local time). -/
structure ShiftEvent where
  id : String
  resourceId : String
  title : String
  start : ℤ
  stop : ℤ
deriving DecidableEq, Repr

/-- Calendar day number of a minute number (`isSameDay` compares these). -/
def minuteDay (t : ℤ) : ℤ := t / 1440

/-- `startMinutes` of the `Event` component:
`event.start.getHours() * 60 + event.start.getMinutes()`. -/
def startMinutes (e : ShiftEvent) : ℤ := e.start % 1440

/-- `endMinutes` of the `Event` component:
`event.end.getHours() * 60 + event.end.getMinutes()`. -/
def endMinutes (e : ShiftEvent) : ℤ := e.stop % 1440

/-- `durationMinutes = endMinutes - startMinutes` of the `Event` component. -/
def durationMinutes (e : ShiftEvent) : ℤ := endMinutes e - startMinutes e

/-- Day-view horizontal offset of an event as a fraction of the 24-hour row:
the `Event` component computes `leftPosition = (startMinutes / (24 * 60)) * 100`
percent, i.e. `leftFraction * 100`. -/
def leftFraction (e : ShiftEvent) : ℚ := (startMinutes e : ℚ) / (24 * 60)

/-- Day-view width of an event as a fraction of the 24-hour row: the `Event`
component computes `eventWidth = (durationMinutes / (24 * 60)) * 100` percent. -/
def widthFraction (e : ShiftEvent) : ℚ := (durationMinutes e : ℚ) / (24 * 60)

/-- Per-day event selection of `ResourceRow`:
`events.filter(event => isSameDay(event.start, day))`. -/
def eventsForDay (events : List ShiftEvent) (d : ℤ) : List ShiftEvent :=
  events.filter (fun event => minuteDay event.start == d)

/-- Row-level event selection of `ResourceRow` (`mainApp.tsx` variant):
`events.filter(event => event.resourceId === resource.id && daysInView.some(day => isSameDay(day, event.start)))`. -/
def resourceEvents (events : List ShiftEvent) (resource : Resource)
    (daysInView : List ℤ) : List ShiftEvent :=
  events.filter (fun event =>
    event.resourceId == resource.id &&
      daysInView.any (fun day => day == minuteDay event.start))

/-- The payload `handleSubmit` passes to `addEvent` on success. -/
structure NewShift where
  resourceId : String
  title : String
  start : ℤ
  stop : ℤ
deriving DecidableEq, Repr

/-- `title.trim()` of JavaScript: drop whitespace from both ends of the string.
(Embedded over the character list so that it is kernel-executable.) -/
def trimString (s : String) : String :=
  ⟨((s.data.dropWhile Char.isWhitespace).reverse.dropWhile Char.isWhitespace).reverse⟩

/-- The open-shift title rewrite of `handleSubmit` (`ShiftForm`): starting from
the trimmed title, if the selected resource is `open-shift-resource-id` and
`groupNameForOpenShift` is truthy (present and non-empty), the title becomes
`"Open Shift for {groupName}: {trimmedTitle}"`. -/
def finalTitle (resourceId : String) (groupNameForOpenShift : Option String)
    (trimmedTitle : String) : String :=
  match groupNameForOpenShift with
  | some g =>
      if resourceId = "open-shift-resource-id" ∧ g ≠ "" then
        "Open Shift for " ++ g ++ ": " ++ trimmedTitle
      else trimmedTitle
  | none => trimmedTitle

/-- `handleSubmit` of `ShiftForm` (`mainApp.tsx` lines 487-525).  The two
`parseISO` results arrive as `Option ℤ` minute numbers (`none` when
`isNaN(.getTime())`); the checks run in source order and each failure sets the
corresponding error message and returns before `addEvent`. -/
def handleSubmit (startDateTime endDateTime : Option ℤ)
    (resourceId title : String) (groupNameForOpenShift : Option String) :
    Except String NewShift :=
  match startDateTime, endDateTime with
  | some s, some e =>
    if e ≤ s then .error "End time must be after start time."
    else if resourceId = "" ∨ trimString title = "" then
      .error "Please select a resource and enter a title."
    else .ok ⟨resourceId, finalTitle resourceId groupNameForOpenShift (trimString title), s, e⟩
  | _, _ => .error "Invalid date or time format."

/-- The event record `addEvent` builds: `{ ...newEvent, id: freshId }`. -/
def mkEvent (freshId : String) (n : NewShift) : ShiftEvent :=
  ⟨freshId, n.resourceId, n.title, n.start, n.stop⟩

/-- `addEvent` of `mainApp.tsx` (lines 1177-1183):
`setEvents(prev => [...prev, { ...newEvent, id }])`. -/
def addEvent (events : List ShiftEvent) (freshId : String) (n : NewShift) :
    List ShiftEvent :=
  events ++ [mkEvent freshId n]

/-- The effect of one form submission on the stored event list: on a rejected
submission `handleSubmit` returns before `addEvent`, leaving the list unchanged
and surfacing the message; on success it appends the one new event. -/
def submitAndStore (startDateTime endDateTime : Option ℤ)
    (resourceId title : String) (groupNameForOpenShift : Option String)
    (freshId : String) (events : List ShiftEvent) :
    List ShiftEvent × Option String :=
  match handleSubmit startDateTime endDateTime resourceId title groupNameForOpenShift with
  | .error msg => (events, some msg)
  | .ok n => (addEvent events freshId n, none)

/-- `toggleGroupExpansion` of `mainApp.tsx` (lines 1190-1195):
`prevGroups.map(group => group.id === groupId ? { ...group, isExpanded: !group.isExpanded } : group)`. -/
def toggleGroupExpansion (groups : List ShiftGroup) (groupId : String) :
    List ShiftGroup :=
  groups.map (fun group =>
    if group.id = groupId then { group with isExpanded := !group.isExpanded }
    else group)

/-- `goToNext` of `mainApp.tsx`, `week` branch:
`newDate.setDate(prev.getDate() + 7)`, which under `Date` overflow
normalization advances the anchor by exactly 7 days. -/
def nextWeekAnchor (n : ℤ) : ℤ := n + 7

/-- `goToNext` of `mainApp.tsx`, `month`/`month-detailed` branch: date-fns
`addMonths(date, 1)`, which advances the month and clamps the day-of-month to
the length of the target month. -/
def nextMonthAnchor (a : CivilDate) : CivilDate :=
  if a.month = 12 then
    ⟨a.year + 1, 1, min a.day (daysInMonth (a.year + 1) 1)⟩
  else
    ⟨a.year, a.month + 1, min a.day (daysInMonth a.year (a.month + 1))⟩

/-! ## Grounding facts for the date embedding -/

/-- Day 0 of the embedding is 1970-01-01, the `Date` epoch. -/
theorem daysFromCivil_epoch : daysFromCivil 1970 1 1 = 0 := by decide

/-- 2025-05-26 (the spec's example Monday) has weekday 1. -/
theorem sanity_monday_20250526 :
    daysFromCivil 2025 5 26 = 20234 ∧ weekday 20234 = 1 := by decide

/-- 2024 is a leap year, 2025 is not; February 2024 has 29 days. -/
theorem sanity_leap :
    isLeapYear 2024 ∧ ¬ isLeapYear 2025 ∧ ¬ isLeapYear 1900 ∧ isLeapYear 2000 ∧
      daysInMonth 2024 2 = 29 ∧ daysInMonth 2025 2 = 28 := by decide

/-! ## Helper lemmas -/

/-- `daysFromCivil` is linear in the day-of-month argument. -/
theorem daysFromCivil_linear (y m d : ℤ) :
    daysFromCivil y m d = daysFromCivil y m 1 + (d - 1) := by
  unfold daysFromCivil dayOfYear; omega

/-- The day after the last day of month `m` is the first day of month `m + 1`. -/
theorem daysFromCivil_month_succ (y m : ℤ) (h1 : 1 ≤ m) (h2 : m ≤ 11) :
    daysFromCivil y (m + 1) 1 = daysFromCivil y m (daysInMonth y m) + 1 := by
  unfold daysFromCivil dayOfYear monthIdx yearAdj eraOf yoeOf daysInMonth isLeapYear
  interval_cases m <;> simp <;> omega

theorem daysInMonth_bounds (y m : ℤ) :
    28 ≤ daysInMonth y m ∧ daysInMonth y m ≤ 31 := by
  unfold daysInMonth; split_ifs <;> omega

theorem length_dayRange (s e : ℤ) :
    (dayRange s e).length = (e + 1 - s).toNat := by
  rw [dayRange, List.length_map, List.length_range]

theorem mem_dayRange {s e d : ℤ} : d ∈ dayRange s e ↔ s ≤ d ∧ d ≤ e := by
  rw [dayRange, List.mem_map]
  constructor
  · rintro ⟨i, hi, rfl⟩
    rw [List.mem_range] at hi
    omega
  · intro h
    refine ⟨(d - s).toNat, ?_, ?_⟩
    · rw [List.mem_range]; omega
    · omega

theorem get_dayRange (s e : ℤ) (i : ℕ) (h : i < (dayRange s e).length) :
    (dayRange s e).get ⟨i, h⟩ = s + i := by
  rw [List.get_eq_getElem]
  simp only [dayRange, List.getElem_map, List.getElem_range]

/-- Shared facts about a Sunday-to-Saturday padded day grid around `[f, l]`. -/
theorem grid_facts (f l : ℤ) (hfl : f ≤ l) :
    weekday (startOfWeek0 f) = 0
    ∧ startOfWeek0 f ≤ f
    ∧ f - startOfWeek0 f < 7
    ∧ weekday (endOfWeek0 l) = 6
    ∧ l ≤ endOfWeek0 l
    ∧ endOfWeek0 l - l < 7
    ∧ (dayRange (startOfWeek0 f) (endOfWeek0 l)).length % 7 = 0
    ∧ 0 < (dayRange (startOfWeek0 f) (endOfWeek0 l)).length
    ∧ f ∈ dayRange (startOfWeek0 f) (endOfWeek0 l)
    ∧ l ∈ dayRange (startOfWeek0 f) (endOfWeek0 l) := by
  have hlen := length_dayRange (startOfWeek0 f) (endOfWeek0 l)
  refine ⟨?_, ?_, ?_, ?_, ?_, ?_, ?_, ?_, ?_, ?_⟩
  · simp only [weekday, startOfWeek0]; omega
  · simp only [startOfWeek0, weekday]; omega
  · simp only [startOfWeek0, weekday]; omega
  · simp only [endOfWeek0, weekday]; omega
  · simp only [endOfWeek0, weekday]; omega
  · simp only [endOfWeek0, weekday]; omega
  · rw [hlen]; simp only [startOfWeek0, endOfWeek0, weekday]; omega
  · rw [hlen]; simp only [startOfWeek0, endOfWeek0, weekday]; omega
  · rw [mem_dayRange]; simp only [startOfWeek0, endOfWeek0, weekday]; omega
  · rw [mem_dayRange]; simp only [startOfWeek0, endOfWeek0, weekday]; omega

/-! ## Claim theorems -/

/-- Claim C1: for every anchor date, the Week view resolves to exactly 7
consecutive calendar days in order, the first being the (unique) Sunday on or
before the anchor; `MainCalendar`'s week branch displays exactly
`getDaysInWeek`. -/
theorem week_view_buckets (n : ℤ) :
    getDaysInWeek n =
      [startOfWeek0 n, startOfWeek0 n + 1, startOfWeek0 n + 2, startOfWeek0 n + 3,
       startOfWeek0 n + 4, startOfWeek0 n + 5, startOfWeek0 n + 6]
    ∧ (getDaysInWeek n).length = 7
    ∧ weekday (startOfWeek0 n) = 0
    ∧ startOfWeek0 n ≤ n
    ∧ n < startOfWeek0 n + 7
    ∧ (∀ s : ℤ, weekday s = 0 → s ≤ n → n < s + 7 → s = startOfWeek0 n)
    ∧ (∀ a : CivilDate, columnsToDisplay CalendarView.week a
        = getDaysInWeek (anchorDayNumber a)) := by
  refine ⟨?_, ?_, ?_, ?_, ?_, ?_, fun a => rfl⟩
  · show (List.range 7).map (fun i : ℕ => startOfWeek0 n + (i : ℤ)) = _
    norm_num [List.range_succ]
  · rfl
  · simp only [weekday, startOfWeek0]; omega
  · simp only [startOfWeek0, weekday]; omega
  · simp only [startOfWeek0, weekday]; omega
  · intro s h1 h2 h3
    simp only [startOfWeek0, weekday] at h1 h2 h3 ⊢
    omega

/-- Witness for C1 at the anchor 2025-05-26 (day number 20234). -/
theorem week_view_buckets_witness :
    weekday (startOfWeek0 20234) = 0 ∧ startOfWeek0 20234 ≤ 20234 ∧
      (getDaysInWeek 20234).length = 7 :=
  ⟨(week_view_buckets 20234).2.2.1, (week_view_buckets 20234).2.2.2.1,
    (week_view_buckets 20234).2.1⟩

/-- Claim C2: for every valid anchor date, the Month (and MonthDetailed) view
resolves to the consecutive days from the Sunday on/before the first of the
anchor's month through the Saturday on/after its last day; the bucket count is
a positive multiple of 7 and the month's first and last day lie in the range. -/
theorem month_view_grid (a : CivilDate) (h : Valid a) :
    monthViewDays a
      = dayRange (startOfWeek0 (startOfMonthDay a)) (endOfWeek0 (endOfMonthDay a))
    ∧ columnsToDisplay CalendarView.month a = monthViewDays a
    ∧ columnsToDisplay CalendarView.monthDetailed a = monthViewDays a
    ∧ (monthViewDays a).length % 7 = 0
    ∧ 0 < (monthViewDays a).length
    ∧ startOfMonthDay a ∈ monthViewDays a
    ∧ endOfMonthDay a ∈ monthViewDays a
    ∧ anchorDayNumber a ∈ monthViewDays a
    ∧ weekday (startOfWeek0 (startOfMonthDay a)) = 0
    ∧ startOfWeek0 (startOfMonthDay a) ≤ startOfMonthDay a
    ∧ startOfMonthDay a - startOfWeek0 (startOfMonthDay a) < 7
    ∧ weekday (endOfWeek0 (endOfMonthDay a)) = 6
    ∧ endOfMonthDay a ≤ endOfWeek0 (endOfMonthDay a)
    ∧ endOfWeek0 (endOfMonthDay a) - endOfMonthDay a < 7
    ∧ (∀ i (hi : i < (monthViewDays a).length),
        (monthViewDays a).get ⟨i, hi⟩ = startOfWeek0 (startOfMonthDay a) + i)
    ∧ (∀ d : ℤ, d ∈ monthViewDays a ↔
        startOfWeek0 (startOfMonthDay a) ≤ d ∧ d ≤ endOfWeek0 (endOfMonthDay a)) := by
  have hb := daysInMonth_bounds a.year a.month
  have hlin := daysFromCivil_linear a.year a.month (daysInMonth a.year a.month)
  have hlin2 := daysFromCivil_linear a.year a.month a.day
  have hl : endOfMonthDay a = startOfMonthDay a + (daysInMonth a.year a.month - 1) := by
    unfold endOfMonthDay startOfMonthDay; omega
  have hanchor : startOfMonthDay a ≤ anchorDayNumber a
      ∧ anchorDayNumber a ≤ endOfMonthDay a := by
    unfold anchorDayNumber startOfMonthDay at *
    rcases h with ⟨h1, h2, h3, h4⟩
    omega
  have hfl : startOfMonthDay a ≤ endOfMonthDay a := by omega
  obtain ⟨g1, g2, g3, g4, g5, g6, g7, g8, g9, g10⟩ :=
    grid_facts (startOfMonthDay a) (endOfMonthDay a) hfl
  refine ⟨rfl, rfl, rfl, g7, g8, g9, g10, ?_, g1, g2, g3, g4, g5, g6,
    fun i hi => get_dayRange _ _ i hi, fun d => mem_dayRange⟩
  rw [show monthViewDays a
      = dayRange (startOfWeek0 (startOfMonthDay a)) (endOfWeek0 (endOfMonthDay a)) from rfl,
    mem_dayRange]
  simp only [startOfWeek0, endOfWeek0, weekday]
  omega

/-- Witness for C2 at the anchor 2025-05-26. -/
theorem month_view_grid_witness :
    Valid ⟨2025, 5, 26⟩
    ∧ (monthViewDays ⟨2025, 5, 26⟩).length % 7 = 0
    ∧ 0 < (monthViewDays ⟨2025, 5, 26⟩).length
    ∧ startOfMonthDay ⟨2025, 5, 26⟩ ∈ monthViewDays ⟨2025, 5, 26⟩
    ∧ endOfMonthDay ⟨2025, 5, 26⟩ ∈ monthViewDays ⟨2025, 5, 26⟩ := by
  have H := month_view_grid ⟨2025, 5, 26⟩ (by decide)
  exact ⟨by decide, H.2.2.2.1, H.2.2.2.2.1, H.2.2.2.2.2.1, H.2.2.2.2.2.2.1⟩

/-- The quarter's last day is the sum of its three month lengths after its
first day; in particular the quarter is a nonempty day interval. -/
theorem quarter_span (a : CivilDate) (h : Valid a) :
    startOfQuarterDay a ≤ endOfQuarterDay a
    ∧ endOfQuarterDay a = startOfQuarterDay a +
        (daysInMonth a.year (quarterFirstMonth a.month)
          + daysInMonth a.year (quarterFirstMonth a.month + 1)
          + daysInMonth a.year (quarterFirstMonth a.month + 2) - 1) := by
  obtain ⟨h1, h2, h3, h4⟩ := h
  have hq : 1 ≤ quarterFirstMonth a.month ∧ quarterFirstMonth a.month ≤ 10 := by
    unfold quarterFirstMonth; omega
  have s1 := daysFromCivil_month_succ a.year (quarterFirstMonth a.month) hq.1 (by omega)
  have s2 := daysFromCivil_month_succ a.year (quarterFirstMonth a.month + 1)
    (by omega) (by omega)
  have e2 : quarterFirstMonth a.month + 1 + 1 = quarterFirstMonth a.month + 2 := by ring
  rw [e2] at s2
  have l1 := daysFromCivil_linear a.year (quarterFirstMonth a.month)
    (daysInMonth a.year (quarterFirstMonth a.month))
  have l2 := daysFromCivil_linear a.year (quarterFirstMonth a.month + 1)
    (daysInMonth a.year (quarterFirstMonth a.month + 1))
  have l3 := daysFromCivil_linear a.year (quarterFirstMonth a.month + 2)
    (daysInMonth a.year (quarterFirstMonth a.month + 2))
  have b1 := daysInMonth_bounds a.year (quarterFirstMonth a.month)
  have b2 := daysInMonth_bounds a.year (quarterFirstMonth a.month + 1)
  have b3 := daysInMonth_bounds a.year (quarterFirstMonth a.month + 2)
  unfold startOfQuarterDay endOfQuarterDay
  omega

/-- Claim C3 counterexample: at the valid anchor 2025-05-26 the Quarter
(summary) view does not apply the grid-padding rule: its day-column list is
empty and it renders three month tiles, while the padded day grid for Q2 2025
has 98 day buckets. -/
theorem quarter_view_counterexample :
    Valid ⟨2025, 5, 26⟩
    ∧ columnsToDisplay CalendarView.quarter ⟨2025, 5, 26⟩ = []
    ∧ quarterSummaryMonths ⟨2025, 5, 26⟩ = [(2025, 4), (2025, 5), (2025, 6)]
    ∧ (quarterSummaryMonths ⟨2025, 5, 26⟩).length = 3
    ∧ (quarterDetailedDays ⟨2025, 5, 26⟩).length = 98
    ∧ (columnsToDisplay CalendarView.quarter ⟨2025, 5, 26⟩).length
        ≠ (quarterDetailedDays ⟨2025, 5, 26⟩).length := by decide

/-- Claim C3 (amended): the QuarterDetailed view applies the Month-view grid
padding to the quarter's first and last day (Sunday on/before through Saturday
on/after, a positive multiple of 7 consecutive days); the Quarter summary view
instead renders one tile per month of the quarter and shows no day columns. -/
theorem quarter_views_amended (a : CivilDate) (h : Valid a) :
    quarterDetailedDays a
      = dayRange (startOfWeek0 (startOfQuarterDay a)) (endOfWeek0 (endOfQuarterDay a))
    ∧ columnsToDisplay CalendarView.quarterDetailed a = quarterDetailedDays a
    ∧ (quarterDetailedDays a).length % 7 = 0
    ∧ 0 < (quarterDetailedDays a).length
    ∧ startOfQuarterDay a ∈ quarterDetailedDays a
    ∧ endOfQuarterDay a ∈ quarterDetailedDays a
    ∧ weekday (startOfWeek0 (startOfQuarterDay a)) = 0
    ∧ startOfWeek0 (startOfQuarterDay a) ≤ startOfQuarterDay a
    ∧ startOfQuarterDay a - startOfWeek0 (startOfQuarterDay a) < 7
    ∧ weekday (endOfWeek0 (endOfQuarterDay a)) = 6
    ∧ endOfQuarterDay a ≤ endOfWeek0 (endOfQuarterDay a)
    ∧ endOfWeek0 (endOfQuarterDay a) - endOfQuarterDay a < 7
    ∧ (∀ i (hi : i < (quarterDetailedDays a).length),
        (quarterDetailedDays a).get ⟨i, hi⟩ = startOfWeek0 (startOfQuarterDay a) + i)
    ∧ (∀ d : ℤ, d ∈ quarterDetailedDays a ↔
        startOfWeek0 (startOfQuarterDay a) ≤ d ∧ d ≤ endOfWeek0 (endOfQuarterDay a))
    ∧ columnsToDisplay CalendarView.quarter a = []
    ∧ quarterSummaryMonths a
        = [(a.year, quarterFirstMonth a.month), (a.year, quarterFirstMonth a.month + 1),
           (a.year, quarterFirstMonth a.month + 2)] := by
  have hfl := (quarter_span a h).1
  obtain ⟨g1, g2, g3, g4, g5, g6, g7, g8, g9, g10⟩ :=
    grid_facts (startOfQuarterDay a) (endOfQuarterDay a) hfl
  refine ⟨rfl, rfl, g7, g8, g9, g10, g1, g2, g3, g4, g5, g6,
    fun i hi => get_dayRange _ _ i hi, fun d => mem_dayRange, rfl, ?_⟩
  show (List.range 3).map _ = _
  norm_num [List.range_succ]

/-- Witness for the amended C3 at the anchor 2025-05-26. -/
theorem quarter_views_witness :
    Valid ⟨2025, 5, 26⟩
    ∧ (quarterDetailedDays ⟨2025, 5, 26⟩).length % 7 = 0
    ∧ startOfQuarterDay ⟨2025, 5, 26⟩ ∈ quarterDetailedDays ⟨2025, 5, 26⟩
    ∧ endOfQuarterDay ⟨2025, 5, 26⟩ ∈ quarterDetailedDays ⟨2025, 5, 26⟩ := by
  have H := quarter_views_amended ⟨2025, 5, 26⟩ (by decide)
  exact ⟨by decide, H.2.2.1, H.2.2.2.2.1, H.2.2.2.2.2.1⟩

/-- Claim C4: for every event whose `end` is after its `start` and whose start
and end fall on the same calendar day, the Day-view layout fractions satisfy
`0 ≤ leftFraction < 1`, `widthFraction > 0`, and
`leftFraction + widthFraction ≤ 1 ≤ 1 + ε` for every `ε ≥ 0`. -/
theorem day_view_fractions (e : ShiftEvent) (h1 : e.start < e.stop)
    (h2 : minuteDay e.start = minuteDay e.stop) :
    0 ≤ leftFraction e
    ∧ leftFraction e < 1
    ∧ 0 < widthFraction e
    ∧ leftFraction e + widthFraction e ≤ 1
    ∧ ∀ ε : ℚ, 0 ≤ ε → leftFraction e + widthFraction e ≤ 1 + ε := by
  have hs0 : 0 ≤ startMinutes e ∧ startMinutes e < 1440 := by
    unfold startMinutes; omega
  have he0 : 0 ≤ endMinutes e ∧ endMinutes e < 1440 := by
    unfold endMinutes; omega
  have hlt : startMinutes e < endMinutes e := by
    unfold startMinutes endMinutes
    unfold minuteDay at h2
    omega
  have hden : (0 : ℚ) < 24 * 60 := by norm_num
  have left0 : 0 ≤ leftFraction e := by
    unfold leftFraction
    apply div_nonneg _ (le_of_lt hden)
    exact_mod_cast hs0.1
  have left1 : leftFraction e < 1 := by
    unfold leftFraction
    rw [div_lt_one hden]
    have : (startMinutes e : ℚ) < (1440 : ℤ) := by exact_mod_cast hs0.2
    calc (startMinutes e : ℚ) < ((1440 : ℤ) : ℚ) := this
    _ = 24 * 60 := by norm_num
  have width0 : 0 < widthFraction e := by
    unfold widthFraction durationMinutes
    apply div_pos _ hden
    have : (0 : ℤ) < endMinutes e - startMinutes e := by omega
    exact_mod_cast this
  have hsum : leftFraction e + widthFraction e ≤ 1 := by
    unfold leftFraction widthFraction durationMinutes
    rw [div_add_div_same, div_le_one hden]
    have : (startMinutes e + (endMinutes e - startMinutes e) : ℤ) ≤ 1440 := by omega
    calc (startMinutes e : ℚ) + ((endMinutes e - startMinutes e : ℤ) : ℚ)
        = ((startMinutes e + (endMinutes e - startMinutes e) : ℤ) : ℚ) := by push_cast; ring
      _ ≤ ((1440 : ℤ) : ℚ) := by exact_mod_cast this
      _ = 24 * 60 := by norm_num
  exact ⟨left0, left1, width0, hsum,
    fun ε hε => le_trans hsum (by linarith)⟩

/-- Witness for C4: the spec's example shift 2025-05-26 09:00-13:00 (day number
20234, minutes 540 to 780 of that day). -/
theorem day_view_fractions_witness :
    (⟨"evt-1", "res-1", "Morning Shift", 29137500, 29137740⟩ : ShiftEvent).start
        < (⟨"evt-1", "res-1", "Morning Shift", 29137500, 29137740⟩ : ShiftEvent).stop
    ∧ minuteDay 29137500 = minuteDay 29137740
    ∧ 0 ≤ leftFraction ⟨"evt-1", "res-1", "Morning Shift", 29137500, 29137740⟩
    ∧ leftFraction ⟨"evt-1", "res-1", "Morning Shift", 29137500, 29137740⟩ < 1
    ∧ 0 < widthFraction ⟨"evt-1", "res-1", "Morning Shift", 29137500, 29137740⟩
    ∧ leftFraction ⟨"evt-1", "res-1", "Morning Shift", 29137500, 29137740⟩
        + widthFraction ⟨"evt-1", "res-1", "Morning Shift", 29137500, 29137740⟩
        ≤ 1 + 0 := by
  have H := day_view_fractions ⟨"evt-1", "res-1", "Morning Shift", 29137500, 29137740⟩
    (by decide) (by decide)
  exact ⟨by decide, by decide, H.1, H.2.1, H.2.2.1, H.2.2.2.2 0 le_rfl⟩

/-- Claim C5: an event belongs to a day bucket exactly when its `start` falls
on that calendar day (same-calendar-day test, not interval overlap); hence a
midnight-spanning event (here 23:00-01:00 around day 0) is attributed solely to
its start day even though its interval overlaps the next day. -/
theorem day_bucket_membership (events : List ShiftEvent) (ev : ShiftEvent) (d : ℤ) :
    (ev ∈ eventsForDay events d ↔ ev ∈ events ∧ minuteDay ev.start = d)
    ∧ (∀ (r : Resource) (days : List ℤ),
        ev ∈ resourceEvents events r days ↔
          ev ∈ events ∧ ev.resourceId = r.id ∧ minuteDay ev.start ∈ days)
    ∧ eventsForDay [⟨"n1", "r1", "Night", -60, 60⟩] (-1)
        = [⟨"n1", "r1", "Night", -60, 60⟩]
    ∧ eventsForDay [⟨"n1", "r1", "Night", -60, 60⟩] 0 = []
    ∧ (⟨"n1", "r1", "Night", -60, 60⟩ : ShiftEvent).start < 0 * 1440 + 1440
    ∧ 0 * 1440 < (⟨"n1", "r1", "Night", -60, 60⟩ : ShiftEvent).stop := by
  refine ⟨?_, ?_, by decide, by decide, by decide, by decide⟩
  · unfold eventsForDay
    rw [List.mem_filter]
    simp only [beq_iff_eq]
  · intro r days
    unfold resourceEvents
    rw [List.mem_filter]
    simp only [Bool.and_eq_true, beq_iff_eq, List.any_eq_true, and_assoc]
    constructor
    · rintro ⟨hm, hr, x, hx, rfl⟩; exact ⟨hm, hr, hx⟩
    · rintro ⟨hm, hr, hx⟩; exact ⟨hm, hr, minuteDay ev.start, hx, rfl⟩

/-- Witness for C5: the midnight-spanning event sits in day bucket -1 only. -/
theorem day_bucket_membership_witness :
    (⟨"n1", "r1", "Night", -60, 60⟩ : ShiftEvent)
        ∈ eventsForDay [⟨"n1", "r1", "Night", -60, 60⟩] (-1)
    ∧ ¬ ((⟨"n1", "r1", "Night", -60, 60⟩ : ShiftEvent)
        ∈ eventsForDay [⟨"n1", "r1", "Night", -60, 60⟩] 0) := by
  have H1 := (day_bucket_membership [⟨"n1", "r1", "Night", -60, 60⟩]
    ⟨"n1", "r1", "Night", -60, 60⟩ (-1)).1
  have H2 := (day_bucket_membership [⟨"n1", "r1", "Night", -60, 60⟩]
    ⟨"n1", "r1", "Night", -60, 60⟩ 0).1
  constructor
  · exact H1.mpr ⟨by decide, by decide⟩
  · intro hmem
    exact absurd (H2.mp hmem).2 (by decide)

/-- Claim C6: the shift-creation checks run in source order with their exact
messages: parse failure first, then `end <= start`, then missing resource /
blank title; a submission passing all three is accepted. -/
theorem shift_validation (s? e? : Option ℤ) (rid title : String) (g : Option String) :
    (handleSubmit s? e? rid title g = .error "Invalid date or time format."
      ↔ s? = none ∨ e? = none)
    ∧ (handleSubmit s? e? rid title g = .error "End time must be after start time."
      ↔ ∃ s e, s? = some s ∧ e? = some e ∧ e ≤ s)
    ∧ (handleSubmit s? e? rid title g = .error "Please select a resource and enter a title."
      ↔ ∃ s e, s? = some s ∧ e? = some e ∧ s < e ∧ (rid = "" ∨ trimString title = ""))
    ∧ ((∃ n, handleSubmit s? e? rid title g = .ok n)
      ↔ ∃ s e, s? = some s ∧ e? = some e ∧ s < e ∧ rid ≠ "" ∧ trimString title ≠ "") := by
  have hinv1 : ∀ x : Option ℤ,
      handleSubmit none x rid title g = .error "Invalid date or time format." := by
    intro x; cases x <;> rfl
  have hinv2 : ∀ x : Option ℤ,
      handleSubmit x none rid title g = .error "Invalid date or time format." := by
    intro x; cases x <;> rfl
  obtain _ | s := s?
  · rw [hinv1 e?]
    refine ⟨iff_of_true rfl (Or.inl rfl), ?_, ?_, ?_⟩ <;>
      constructor <;> intro hcon
    · exact absurd hcon (by simp)
    · obtain ⟨s, e, hs, _⟩ := hcon; exact Option.noConfusion hs
    · exact absurd hcon (by simp)
    · obtain ⟨s, e, hs, _⟩ := hcon; exact Option.noConfusion hs
    · obtain ⟨n, hn⟩ := hcon; exact absurd hn (by simp)
    · obtain ⟨s, e, hs, _⟩ := hcon; exact Option.noConfusion hs
  obtain _ | e := e?
  · rw [hinv2 (some s)]
    refine ⟨iff_of_true rfl (Or.inr rfl), ?_, ?_, ?_⟩ <;>
      constructor <;> intro hcon
    · exact absurd hcon (by simp)
    · obtain ⟨s', e, _, he, _⟩ := hcon; exact Option.noConfusion he
    · exact absurd hcon (by simp)
    · obtain ⟨s', e, _, he, _⟩ := hcon; exact Option.noConfusion he
    · obtain ⟨n, hn⟩ := hcon; exact absurd hn (by simp)
    · obtain ⟨s', e, _, he, _⟩ := hcon; exact Option.noConfusion he
  by_cases h1 : e ≤ s
  · have hres : handleSubmit (some s) (some e) rid title g
        = .error "End time must be after start time." := by
      simp [handleSubmit, if_pos h1]
    rw [hres]
    refine ⟨?_, iff_of_true rfl ⟨s, e, rfl, rfl, h1⟩, ?_, ?_⟩
    · constructor <;> intro hcon
      · exact absurd hcon (by simp)
      · rcases hcon with hno | hno <;> exact Option.noConfusion hno
    · constructor <;> intro hcon
      · exact absurd hcon (by simp)
      · obtain ⟨s', e', hs, he, hlt, _⟩ := hcon
        obtain rfl := Option.some.inj hs
        obtain rfl := Option.some.inj he
        omega
    · constructor <;> intro hcon
      · obtain ⟨n, hn⟩ := hcon; exact absurd hn (by simp)
      · obtain ⟨s', e', hs, he, hlt, _⟩ := hcon
        obtain rfl := Option.some.inj hs
        obtain rfl := Option.some.inj he
        omega
  by_cases h2 : rid = "" ∨ trimString title = ""
  · have hres : handleSubmit (some s) (some e) rid title g
        = .error "Please select a resource and enter a title." := by
      simp only [handleSubmit, if_neg h1, if_pos h2]
    rw [hres]
    refine ⟨?_, ?_, iff_of_true rfl ⟨s, e, rfl, rfl, by omega, h2⟩, ?_⟩
    · constructor <;> intro hcon
      · exact absurd hcon (by simp)
      · rcases hcon with hno | hno <;> exact Option.noConfusion hno
    · constructor <;> intro hcon
      · exact absurd hcon (by simp)
      · obtain ⟨s', e', hs, he, hle⟩ := hcon
        obtain rfl := Option.some.inj hs
        obtain rfl := Option.some.inj he
        omega
    · constructor <;> intro hcon
      · obtain ⟨n, hn⟩ := hcon; exact absurd hn (by simp)
      · obtain ⟨s', e', hs, he, hlt, hrid, htitle⟩ := hcon
        obtain rfl := Option.some.inj hs
        obtain rfl := Option.some.inj he
        rcases h2 with h2 | h2
        · exact absurd h2 hrid
        · exact absurd h2 htitle
  · have hres : handleSubmit (some s) (some e) rid title g
        = .ok ⟨rid, finalTitle rid g (trimString title), s, e⟩ := by
      simp only [handleSubmit, if_neg h1, if_neg h2]
    rw [hres]
    push_neg at h2
    refine ⟨?_, ?_, ?_, iff_of_true ⟨_, rfl⟩ ⟨s, e, rfl, rfl, by omega, h2.1, h2.2⟩⟩
    · constructor <;> intro hcon
      · exact absurd hcon (by simp)
      · rcases hcon with hno | hno <;> exact Option.noConfusion hno
    · constructor <;> intro hcon
      · exact absurd hcon (by simp)
      · obtain ⟨s', e', hs, he, hle⟩ := hcon
        obtain rfl := Option.some.inj hs
        obtain rfl := Option.some.inj he
        omega
    · constructor <;> intro hcon
      · exact absurd hcon (by simp)
      · obtain ⟨s', e', hs, he, hlt, hor⟩ := hcon
        obtain rfl := Option.some.inj hs
        obtain rfl := Option.some.inj he
        rcases hor with hh | hh
        · exact absurd hh h2.1
        · exact absurd hh h2.2

/-- Witness for C6: the spec's rejection example (end 08:00 before start
09:00) and its acceptance example (09:00-13:00 shift titled "Morning Shift"). -/
theorem shift_validation_witness :
    handleSubmit (some 540) (some 480) "res-1" "Morning Shift" none
      = .error "End time must be after start time."
    ∧ ∃ n, handleSubmit (some 29137500) (some 29137740) "res-1" "Morning Shift" none
      = .ok n := by
  constructor
  · exact (shift_validation (some 540) (some 480) "res-1" "Morning Shift" none).2.1.mpr
      ⟨540, 480, rfl, rfl, by decide⟩
  · exact (shift_validation (some 29137500) (some 29137740) "res-1" "Morning Shift"
      none).2.2.2.mpr ⟨29137500, 29137740, rfl, rfl, by decide, by decide, by decide⟩

/-- Claim C7 counterexample: with the synthetic open-shifts resource selected
but an absent or empty group name (reachable by picking "Open Shifts" in the
plain add-shift form), the stored title is NOT rewritten: it stays "Cover"
instead of becoming an "Open Shift for ..." title. -/
theorem open_shift_title_counterexample :
    finalTitle "open-shift-resource-id" (some "") "Cover" = "Cover"
    ∧ finalTitle "open-shift-resource-id" (some "") "Cover" ≠ "Open Shift for : Cover"
    ∧ finalTitle "open-shift-resource-id" none "Cover" = "Cover"
    ∧ handleSubmit (some 540) (some 780) "open-shift-resource-id" "Cover" none
        = .ok ⟨"open-shift-resource-id", "Cover", 540, 780⟩ := by
  refine ⟨by decide, by decide, by decide, ?_⟩
  rfl

/-- Claim C7 (amended): on success the stored title is the trimmed input title,
except that when the selected resource is the synthetic "Open Shifts" resource
AND a non-empty group name was provided, the trimmed title is rewritten to
`"Open Shift for {groupName}: {trimmedTitle}"`. -/
theorem open_shift_title_amended (rid t : String) (g : Option String) :
    (rid ≠ "open-shift-resource-id" → finalTitle rid g t = t)
    ∧ (g = none → finalTitle rid g t = t)
    ∧ (g = some "" → finalTitle rid g t = t)
    ∧ (∀ gname, g = some gname → gname ≠ "" → rid = "open-shift-resource-id" →
        finalTitle rid g t = "Open Shift for " ++ gname ++ ": " ++ t)
    ∧ (∀ s e n, handleSubmit (some s) (some e) rid t g = .ok n →
        n.title = finalTitle rid g (trimString t)) := by
  refine ⟨?_, ?_, ?_, ?_, ?_⟩
  · intro h
    cases g with
    | none => rfl
    | some gname =>
        simp only [finalTitle]
        rw [if_neg (fun hc => h hc.1)]
  · rintro rfl; rfl
  · rintro rfl
    simp only [finalTitle]
    rw [if_neg (fun hc => hc.2 rfl)]
  · rintro gname rfl hg rfl
    simp only [finalTitle]
    rw [if_pos ⟨trivial, hg⟩]
  · intro s e n hn
    simp only [handleSubmit] at hn
    by_cases h1 : e ≤ s
    · rw [if_pos h1] at hn
      exact absurd hn (by simp)
    · rw [if_neg h1] at hn
      by_cases h2 : rid = "" ∨ trimString t = ""
      · rw [if_pos h2] at hn
        exact absurd hn (by simp)
      · rw [if_neg h2] at hn
        have := Except.ok.inj hn
        rw [← this]

/-- Witness for the amended C7: the spec's "Sales Department"/"Cover" example,
and an ordinary resource keeping its title. -/
theorem open_shift_title_witness :
    finalTitle "open-shift-resource-id" (some "Sales Department") "Cover"
      = "Open Shift for Sales Department: Cover"
    ∧ finalTitle "res-1" (some "Sales Department") "Cover" = "Cover" := by
  constructor
  · exact ((open_shift_title_amended "open-shift-resource-id" "Cover"
      (some "Sales Department")).2.2.2.1 "Sales Department" rfl (by decide) rfl).trans
      (by decide)
  · exact (open_shift_title_amended "res-1" "Cover" (some "Sales Department")).1 (by decide)

/-- Claim C8 counterexample: from the valid anchor 2025-05-31, "next" in Month
view yields 2025-06-30 (date-fns `addMonths` clamps to the end of June), not a
"corresponding" June date with the same day-of-month. -/
theorem next_month_counterexample :
    Valid ⟨2025, 5, 31⟩
    ∧ nextMonthAnchor ⟨2025, 5, 31⟩ = ⟨2025, 6, 30⟩
    ∧ nextMonthAnchor ⟨2025, 5, 31⟩ ≠ ⟨2025, 6, 31⟩
    ∧ (nextMonthAnchor ⟨2025, 5, 31⟩).day ≠ (⟨2025, 5, 31⟩ : CivilDate).day := by decide

/-- Claim C8 (amended): "next" advances the anchor by one view-sized step: in
Week view by exactly 7 days (2025-05-26 to 2025-06-02, preserving the weekday),
and in Month view to the next calendar month keeping the day-of-month clamped
to the target month's length (kept exactly whenever it fits). -/
theorem next_navigation_amended (a : CivilDate) (h : Valid a) :
    nextWeekAnchor (anchorDayNumber a) = anchorDayNumber a + 7
    ∧ weekday (nextWeekAnchor (anchorDayNumber a)) = weekday (anchorDayNumber a)
    ∧ nextWeekAnchor (daysFromCivil 2025 5 26) = daysFromCivil 2025 6 2
    ∧ Valid (nextMonthAnchor a)
    ∧ 12 * (nextMonthAnchor a).year + (nextMonthAnchor a).month
        = 12 * a.year + a.month + 1
    ∧ (nextMonthAnchor a).day
        = min a.day (daysInMonth (nextMonthAnchor a).year (nextMonthAnchor a).month)
    ∧ (a.day ≤ daysInMonth (nextMonthAnchor a).year (nextMonthAnchor a).month →
        (nextMonthAnchor a).day = a.day) := by
  obtain ⟨h1, h2, h3, h4⟩ := h
  refine ⟨rfl, ?_, by decide, ?_, ?_, ?_, ?_⟩
  · simp only [nextWeekAnchor, weekday]; omega
  · unfold nextMonthAnchor Valid
    split_ifs with hm <;> dsimp only
    · have hb := daysInMonth_bounds (a.year + 1) 1
      refine ⟨by norm_num, by norm_num, ?_, ?_⟩ <;> omega
    · have hb := daysInMonth_bounds a.year (a.month + 1)
      refine ⟨by omega, by omega, ?_, ?_⟩ <;> omega
  · unfold nextMonthAnchor
    split_ifs with hm <;> dsimp only <;> omega
  · unfold nextMonthAnchor
    split_ifs with hm <;> dsimp only
  · intro hle
    unfold nextMonthAnchor at hle ⊢
    split_ifs at hle ⊢ with hm <;> dsimp only at hle ⊢ <;> omega

/-- Witness for the amended C8 at the anchor 2025-05-26. -/
theorem next_navigation_witness :
    Valid ⟨2025, 5, 26⟩
    ∧ nextWeekAnchor (daysFromCivil 2025 5 26) = daysFromCivil 2025 6 2
    ∧ Valid (nextMonthAnchor ⟨2025, 5, 26⟩)
    ∧ (nextMonthAnchor ⟨2025, 5, 26⟩).day = 26 := by
  have H := next_navigation_amended ⟨2025, 5, 26⟩ (by decide)
  exact ⟨by decide, H.2.2.1, H.2.2.2.1, H.2.2.2.2.2.2 (by decide)⟩

/-- Claim C9: submission is atomic on the event list: every rejected submission
leaves the stored events exactly unchanged (and surfaces the message), and an
accepted one appends exactly one event at the end, preserving every
pre-existing event. -/
theorem submit_atomic (s? e? : Option ℤ) (rid title : String) (g : Option String)
    (freshId : String) (events : List ShiftEvent) :
    (∀ msg, handleSubmit s? e? rid title g = .error msg →
      submitAndStore s? e? rid title g freshId events = (events, some msg))
    ∧ (∀ n, handleSubmit s? e? rid title g = .ok n →
      submitAndStore s? e? rid title g freshId events
          = (events ++ [mkEvent freshId n], none)
      ∧ (submitAndStore s? e? rid title g freshId events).1.length = events.length + 1
      ∧ (submitAndStore s? e? rid title g freshId events).1.take events.length = events
      ∧ ∀ ev ∈ events, ev ∈ (submitAndStore s? e? rid title g freshId events).1) := by
  constructor
  · intro msg hmsg
    unfold submitAndStore
    rw [hmsg]
  · intro n hn
    have hs : submitAndStore s? e? rid title g freshId events
        = (events ++ [mkEvent freshId n], none) := by
      unfold submitAndStore
      rw [hn]
      rfl
    refine ⟨hs, ?_, ?_, ?_⟩
    · rw [hs]
      simp
    · rw [hs]
      exact List.take_left events [mkEvent freshId n]
    · intro ev hev
      rw [hs]
      exact List.mem_append_left _ hev

/-- Witness for C9: the rejected end-before-start submission leaves an empty
store empty; the accepted 09:00-13:00 submission appends exactly that shift. -/
theorem submit_atomic_witness :
    submitAndStore (some 540) (some 480) "res-1" "Morning Shift" none "evt-9" []
      = ([], some "End time must be after start time.")
    ∧ (submitAndStore (some 29137500) (some 29137740) "res-1" "Morning Shift" none
        "evt-9" []).1
      = [⟨"evt-9", "res-1", "Morning Shift", 29137500, 29137740⟩] := by
  constructor
  · exact (submit_atomic (some 540) (some 480) "res-1" "Morning Shift" none "evt-9" []).1
      "End time must be after start time." rfl
  · have H := (submit_atomic (some 29137500) (some 29137740) "res-1" "Morning Shift" none
      "evt-9" []).2 ⟨"res-1", "Morning Shift", 29137500, 29137740⟩ rfl
    rw [H.1]
    rfl

/-- Claim C10: `toggleGroupExpansion` negates `isExpanded` of exactly the groups
whose id matches and changes nothing else (ids, names, membership, order and
length are preserved), and applying it twice restores the original list. -/
theorem toggle_group_frame (groups : List ShiftGroup) (gid : String) :
    (toggleGroupExpansion groups gid).length = groups.length
    ∧ (∀ i : ℕ, (toggleGroupExpansion groups gid)[i]?
        = (groups[i]?).map (fun grp =>
            if grp.id = gid then ⟨grp.id, grp.name, !grp.isExpanded⟩ else grp))
    ∧ toggleGroupExpansion (toggleGroupExpansion groups gid) gid = groups := by
  have hf : ∀ grp : ShiftGroup,
      (if (if grp.id = gid then
              ({ grp with isExpanded := !grp.isExpanded } : ShiftGroup)
            else grp).id = gid then
        { (if grp.id = gid then
              ({ grp with isExpanded := !grp.isExpanded } : ShiftGroup)
            else grp) with
          isExpanded := !(if grp.id = gid then
              ({ grp with isExpanded := !grp.isExpanded } : ShiftGroup)
            else grp).isExpanded }
      else (if grp.id = gid then
              ({ grp with isExpanded := !grp.isExpanded } : ShiftGroup)
            else grp)) = grp := by
    intro grp
    by_cases hid : grp.id = gid
    · simp only [if_pos hid, Bool.not_not]
    · simp only [if_neg hid]
  refine ⟨?_, ?_, ?_⟩
  · exact List.length_map _ _
  · intro i
    unfold toggleGroupExpansion
    rw [List.getElem?_map]
  · unfold toggleGroupExpansion
    rw [List.map_map]
    calc List.map _ groups = List.map id groups := List.map_congr_left (fun grp _ => hf grp)
      _ = groups := List.map_id _

end Shifts
